import Mathlib

/-!
Verification of the mini-redis server (suibianxiedianer/mini-redis) against its
specification.  The Rust sources are shallowly embedded: byte buffers are
`List Nat` (each element a byte value), `Bytes`/`String` payloads keep their
Rust distinction (`List Nat` vs `String`), `Instant`/`Duration` are `Nat`
milliseconds, and panics (`unreachable!`, `unimplemented!`, `todo!`) are
modelled as explicit outcome constructors or `Option.none`.  All definitions
are executable.
-/

namespace MiniRedis

/-- UTF-8 encoding of a single scalar value, as in Rust `str::as_bytes`. -/
def utf8EncodeChar (c : Char) : List Nat :=
  let n := c.toNat
  if n < 0x80 then [n]
  else if n < 0x800 then [0xC0 + n / 64, 0x80 + n % 64]
  else if n < 0x10000 then [0xE0 + n / 4096, 0x80 + n / 64 % 64, 0x80 + n % 64]
  else [0xF0 + n / 0x40000, 0x80 + n / 4096 % 64, 0x80 + n / 64 % 64, 0x80 + n % 64]

/-- Byte sequence of a Rust string (`String::into_bytes` / `as_bytes`). -/
def strBytes (s : String) : List Nat :=
  (s.data.map utf8EncodeChar).flatten

/-- Is the byte a UTF-8 continuation byte (0x80..0xBF)? -/
def isContByte (b : Nat) : Bool := 0x80 ≤ b && b ≤ 0xBF

/-- UTF-8 decoding, as in Rust `String::from_utf8` (strict: rejects overlong
forms, surrogates and out-of-range scalar values; returns `none` on any
invalid byte sequence). -/
def utf8Decode : List Nat → Option (List Char)
  | [] => some []
  | b1 :: r1 =>
    if b1 < 0x80 then
      (utf8Decode r1).map (Char.ofNat b1 :: ·)
    else if b1 < 0xC2 then none
    else if b1 < 0xE0 then
      match r1 with
      | b2 :: r2 =>
        if isContByte b2 then
          (utf8Decode r2).map (Char.ofNat ((b1 - 0xC0) * 64 + (b2 - 0x80)) :: ·)
        else none
      | _ => none
    else if b1 < 0xF0 then
      match r1 with
      | b2 :: b3 :: r3 =>
        if isContByte b2 && isContByte b3
            && (b1 ≠ 0xE0 || 0xA0 ≤ b2) && (b1 ≠ 0xED || b2 < 0xA0) then
          (utf8Decode r3).map
            (Char.ofNat ((b1 - 0xE0) * 4096 + (b2 - 0x80) * 64 + (b3 - 0x80)) :: ·)
        else none
      | _ => none
    else if b1 < 0xF5 then
      match r1 with
      | b2 :: b3 :: b4 :: r4 =>
        if isContByte b2 && isContByte b3 && isContByte b4
            && (b1 ≠ 0xF0 || 0x90 ≤ b2) && (b1 ≠ 0xF4 || b2 < 0x90) then
          (utf8Decode r4).map
            (Char.ofNat ((b1 - 0xF0) * 0x40000 + (b2 - 0x80) * 4096
              + (b3 - 0x80) * 64 + (b4 - 0x80)) :: ·)
        else none
      | _ => none
    else none

/-- Rust `String::from_utf8` on a byte buffer. -/
def stringFromUtf8 (bs : List Nat) : Option String :=
  (utf8Decode bs).map fun cs => ⟨cs⟩

/-- Decimal digit test on a byte: between 48 and 57. -/
def isDigitByte (b : Nat) : Bool := 48 ≤ b && b ≤ 57

/-- Modelled from the spec: the `atoi` crate function `atoi::<u64>` used by
`get_decimal` and `Parse::next_int` (the crate and the Cargo manifest pinning
its version are not under the repository sources).  Per the spec, "Integer
decoding is base-10 unsigned; any non-digit before the terminator is a
protocol error": the parse succeeds exactly on nonempty all-digit inputs whose
value fits in an unsigned 64-bit integer. -/
def atoiU64 (bs : List Nat) : Option Nat :=
  if !bs.isEmpty && bs.all isDigitByte then
    let v := bs.foldl (fun a b => a * 10 + (b - 48)) 0
    if v < 2 ^ 64 then some v else none
  else none

/-- Decimal ASCII bytes of a number, as produced by `write!(buf, "{}", value)`
in `Connection::write_decimal`. -/
def natDecimalBytes (n : Nat) : List Nat :=
  (Nat.repr n).data.map Char.toNat

/-- Frame, the RESP protocol unit (src/frame.rs).  `Simple`/`Error` carry
text, `Bulk` raw bytes, `Array` nested frames. -/
inductive Frame where
  | simple (s : String)
  | error (s : String)
  | integer (n : Nat)
  | null
  | bulk (b : List Nat)
  | array (xs : List Frame)

/-- Frame-level errors of the codec (src/frame.rs `Error`): `incomplete` for a
buffer ending mid-frame, `other` for protocol errors. -/
inductive FrameError where
  | incomplete
  | other (msg : String)
  deriving DecidableEq

/-- Is the frame an `Array`? -/
def isArrayFrame : Frame → Bool
  | .array _ => true
  | _ => false

/-- Connection::write_value (src/connection.rs, lines 97-126): serialize one
non-array frame.  `none` models the panic of the `Frame::Array` arm
(`unreachable!()`).  Note the `Null` arm of the source writes only the four
bytes `b"-1\r\n"`: the leading `$` byte is missing. -/
def writeValue : Frame → Option (List Nat)
  | .simple s => some (43 :: (strBytes s ++ [13, 10]))
  | .error s => some (45 :: (strBytes s ++ [13, 10]))
  | .integer n => some (58 :: (natDecimalBytes n ++ [13, 10]))
  | .null => some [45, 49, 13, 10]
  | .bulk b => some (36 :: (natDecimalBytes b.length ++ [13, 10] ++ b ++ [13, 10]))
  | .array _ => none

/-- Sequential serialization of array elements through `write_value`; `none`
propagates a panic of any element (nested arrays). -/
def mapWriteValue : List Frame → Option (List (List Nat))
  | [] => some []
  | f :: r =>
    match writeValue f with
    | some bs =>
      match mapWriteValue r with
      | some rest => some (bs :: rest)
      | none => none
    | none => none

/-- Connection::write_frame (src/connection.rs, lines 79-95): an `Array` frame
is written as the `*` byte, the decimal element count, CRLF, then each element
through `write_value`; any other frame goes through `write_value` directly. -/
def writeFrame : Frame → Option (List Nat)
  | .array xs =>
    match mapWriteValue xs with
    | some parts => some (42 :: (natDecimalBytes xs.length ++ [13, 10] ++ parts.flatten))
    | none => none
  | f => writeValue f

/-- get_u8 (src/frame.rs): take one byte off the cursor. -/
def getU8 : List Nat → Option (Nat × List Nat)
  | [] => none
  | b :: r => some (b, r)

/-- get_line (src/frame.rs, lines 209-225): the bytes up to the first CRLF and
the remainder after it; `none` models `Error::Incomplete`. -/
def getLine : List Nat → Option (List Nat × List Nat)
  | [] => none
  | 13 :: 10 :: rest => some ([], rest)
  | b :: rest =>
    match getLine rest with
    | some (line, r) => some (b :: line, r)
    | none => none

/-- get_decimal (src/frame.rs, lines 228-233): read a line and parse it with
`atoi::<u64>`. -/
def getDecimal (r : List Nat) : Except FrameError (Nat × List Nat) :=
  match getLine r with
  | none => .error .incomplete
  | some (line, rest) =>
    match atoiU64 line with
    | some n => .ok (n, rest)
    | none => .error (.other "protocol error: invalid frame format.")

/-- Outcome of Frame::parse: a frame plus the unconsumed bytes, a frame error,
or a panic (the catch-all arm of `parse` is `unimplemented!()`). -/
inductive ParseOut where
  | ok (f : Frame) (rest : List Nat)
  | fail (e : FrameError)
  | panicked

/-- Outcome of parsing a counted sequence of frames (the `*` arm loop). -/
inductive ParseListOut where
  | ok (fs : List Frame) (rest : List Nat)
  | fail (e : FrameError)
  | panicked

mutual

/-- Frame::parse (src/frame.rs, lines 101-152).  The first argument is
recursion fuel bounding array nesting depth: any fuel larger than the nesting
depth of the encoded frame gives exactly the source behavior (the source
recursion is bounded by the buffer, not by fuel). -/
def parseF : Nat → List Nat → ParseOut
  | 0, _ => .fail .incomplete
  | fuel + 1, r =>
    match getU8 r with
    | none => .fail .incomplete
    | some (b, rest) =>
      if b = 43 then
        match getLine rest with
        | none => .fail .incomplete
        | some (line, rest') =>
          match stringFromUtf8 line with
          | some s => .ok (.simple s) rest'
          | none => .fail (.other "protocol error: invalid frame format")
      else if b = 45 then
        match getLine rest with
        | none => .fail .incomplete
        | some (line, rest') =>
          match stringFromUtf8 line with
          | some s => .ok (.error s) rest'
          | none => .fail (.other "protocol error: invalid frame format")
      else if b = 58 then
        match getDecimal rest with
        | .ok (n, rest') => .ok (.integer n) rest'
        | .error e => .fail e
      else if b = 36 then
        match rest with
        | [] => .fail .incomplete
        | c :: _ =>
          if c = 45 then
            match getLine rest with
            | none => .fail .incomplete
            | some (line, rest') =>
              if line = [45, 49] then .ok .null rest'
              else .fail (.other "protocol error: invalid frmae format")
          else
            match getDecimal rest with
            | .error e => .fail e
            | .ok (len, rest') =>
              if rest'.length < len + 2 then .fail .incomplete
              else .ok (.bulk (rest'.take len)) (rest'.drop (len + 2))
      else if b = 42 then
        match getDecimal rest with
        | .error e => .fail e
        | .ok (len, rest') =>
          match parseElems fuel len rest' with
          | .ok fs rest2 => .ok (.array fs) rest2
          | .fail e => .fail e
          | .panicked => .panicked
      else .panicked
  termination_by fuel _ => (fuel, 0)

/-- The element loop of the `*` arm of Frame::parse: parse `n` frames in
sequence. -/
def parseElems : Nat → Nat → List Nat → ParseListOut
  | _, 0, r => .ok [] r
  | fuel, n + 1, r =>
    match parseF fuel r with
    | .ok f r' =>
      match parseElems fuel n r' with
      | .ok fs rest => .ok (f :: fs) rest
      | .fail e => .fail e
      | .panicked => .panicked
    | .fail e => .fail e
    | .panicked => .panicked
  termination_by fuel n _ => (fuel, n + 1)

end


/-- Unicode simple lowercase mapping on a code point, embedding Rust
`char::to_lowercase` as used by `str::to_lowercase` in `Command::from_frame`.
The mapping is exact for code points below 0x100 (there the Unicode lowercase
mapping is precisely ASCII `A`-`Z` and Latin-1 `À`-`Þ` without `×`, each
shifted by +0x20, with no multi-character expansions); code points at or above
0x100 are left unchanged, and no theorem below applies the function to a
string containing such a code point. -/
def rustCharLowerNat (n : Nat) : Nat :=
  if 65 ≤ n ∧ n ≤ 90 then n + 32
  else if 192 ≤ n ∧ n ≤ 222 ∧ n ≠ 215 then n + 32
  else n

/-- Rust `str::to_lowercase` (see `rustCharLowerNat` for the modelled
restriction). -/
def rustToLowercase (s : String) : String :=
  ⟨s.data.map fun c => Char.ofNat (rustCharLowerNat c.toNat)⟩

/-- Unicode simple uppercase mapping on a code point, embedding Rust
`str::to_uppercase` as used by `Set::parse_frames` to compare the expiry
token against "EX"/"PX".  Exact for ASCII and for the Latin-1 letters
`à`-`þ` without `÷`; the expansions ß to "SS" and ÿ to "Ÿ" and mappings of
code points at or above 0x100 are left out, none of which can produce the
strings "EX" or "PX" that the sole caller compares against. -/
def rustCharUpperNat (n : Nat) : Nat :=
  if 97 ≤ n ∧ n ≤ 122 then n - 32
  else if 224 ≤ n ∧ n ≤ 254 ∧ n ≠ 247 then n - 32
  else n

/-- Rust `str::to_uppercase` (see `rustCharUpperNat` for the modelled
restriction). -/
def rustToUppercase (s : String) : String :=
  ⟨s.data.map fun c => Char.ofNat (rustCharUpperNat c.toNat)⟩

/-- ASCII case folding on a code point: only `A`-`Z` are shifted.  This is the
operation described by the specification as "lowercased via ASCII case
folding"; it is compared against the Unicode lowercasing of the source. -/
def asciiLowerNat (n : Nat) : Nat :=
  if 65 ≤ n ∧ n ≤ 90 then n + 32 else n

/-- ASCII lowercasing of a string (how the specification describes command
name folding). -/
def asciiLowercase (s : String) : String :=
  ⟨s.data.map fun c => Char.ofNat (asciiLowerNat c.toNat)⟩

/-- Parse errors of the command-frame iterator (src/parse.rs `ParseError`):
`endOfStream` when the array is exhausted, `other` for protocol errors. -/
inductive ParseError where
  | endOfStream
  | other (msg : String)
  deriving DecidableEq

/-- Abbreviated rendering of a frame for error messages (Rust `{:?}` Debug
formatting; payload byte/element rendering is abstracted - no theorem below
depends on the text of a message built from it). -/
def frameDebug : Frame → String
  | .simple s => "Simple(\"" ++ s ++ "\")"
  | .error s => "Error(\"" ++ s ++ "\")"
  | .integer n => "Integer(" ++ Nat.repr n ++ ")"
  | .null => "Null"
  | .bulk _ => "Bulk(..)"
  | .array _ => "Array(..)"

/-- Conversion of one frame to a text string, the body of Parse::next_string
(src/parse.rs, lines 42-50): `Simple` yields its text, `Bulk` is decoded as
UTF-8, anything else is a protocol error. -/
def stringOfFrame : Frame → Except ParseError String
  | .simple s => .ok s
  | .bulk data =>
    match stringFromUtf8 data with
    | some s => .ok s
    | none => .error (.other "protocol error: invalid string.")
  | f => .error (.other ("protocol error: expected Simple/Bulk frame, but got " ++ frameDebug f))

/-- Parse::next_string (src/parse.rs): take the next frame as a string.  The
iterator state is the list of remaining frames. -/
def nextString : List Frame → Except ParseError (String × List Frame)
  | [] => .error .endOfStream
  | f :: r =>
    match stringOfFrame f with
    | .ok s => .ok (s, r)
    | .error e => .error e

/-- Parse::next_bytes (src/parse.rs, lines 54-60): take the next frame as raw
bytes (`Simple` text is encoded, `Bulk` is passed through). -/
def nextBytes : List Frame → Except ParseError (List Nat × List Frame)
  | [] => .error .endOfStream
  | .simple s :: r => .ok (strBytes s, r)
  | .bulk data :: r => .ok (data, r)
  | f :: _ => .error (.other ("protocol error: expected Simple/Bulk frame, but got " ++ frameDebug f))

/-- Parse::next_int (src/parse.rs, lines 64-75): take the next frame as an
unsigned 64-bit integer (`Integer` directly, `Simple`/`Bulk` through
`atoi`). -/
def nextInt : List Frame → Except ParseError (Nat × List Frame)
  | [] => .error .endOfStream
  | .integer i :: r => .ok (i, r)
  | .simple s :: r =>
    match atoiU64 (strBytes s) with
    | some n => .ok (n, r)
    | none => .error (.other "protocol error: invalid number")
  | .bulk data :: r =>
    match atoiU64 data with
    | some n => .ok (n, r)
    | none => .error (.other "protocol error: invalid number")
  | f :: _ => .error (.other ("protocol error: expected Integer/Simple/Bulk frame, but got " ++ frameDebug f))

/-- Parse::finish (src/parse.rs, lines 78-85): succeed only if no frame
remains unconsumed. -/
def finishP : List Frame → Except ParseError Unit
  | [] => .ok ()
  | _ :: _ => .error (.other "protocol error: expected end of the frame, but there was more.")

/-- Command (src/cmd/mod.rs): the decoded request.  The expiry of `set` and all
durations are milliseconds; `unknown` carries the (lowercased) unrecognized
name. -/
inductive Command where
  | get (key : String)
  | set (key : String) (value : List Nat) (expire : Option Nat)
  | publish (channel : String) (message : List Nat)
  | subscribe (channels : List String)
  | unsubscribe (channels : List String)
  | ping (msg : Option String)
  | unknown (name : String)

/-- Get::parse_frames (src/cmd/get.rs): one key. -/
def getParseFrames (parts : List Frame) : Except ParseError (String × List Frame) :=
  nextString parts

/-- Set::parse_frames (src/cmd/set.rs, lines 43-67): key, value, then an
optional `EX`/`PX` token (uppercased for comparison) with an integer expiry;
`EX` seconds become milliseconds.  Any other token is an error; end of stream
means no expiry. -/
def setParseFrames (parts : List Frame) :
    Except ParseError ((String × List Nat × Option Nat) × List Frame) :=
  match nextString parts with
  | .error e => .error e
  | .ok (key, r1) =>
    match nextBytes r1 with
    | .error e => .error e
    | .ok (value, r2) =>
      match nextString r2 with
      | .ok (s, r3) =>
        if rustToUppercase s = "EX" then
          match nextInt r3 with
          | .error e => .error e
          | .ok (secs, r4) => .ok ((key, value, some (1000 * secs)), r4)
        else if rustToUppercase s = "PX" then
          match nextInt r3 with
          | .error e => .error e
          | .ok (ms, r4) => .ok ((key, value, some ms), r4)
        else .error (.other "currently `SET` only supports the expiration option")
      | .error .endOfStream => .ok ((key, value, none), r2)
      | .error e => .error e

/-- Publish::parse_frames (src/cmd/publish.rs): channel then message. -/
def publishParseFrames (parts : List Frame) :
    Except ParseError ((String × List Nat) × List Frame) :=
  match nextString parts with
  | .error e => .error e
  | .ok (channel, r1) =>
    match nextBytes r1 with
    | .error e => .error e
    | .ok (message, r2) => .ok ((channel, message), r2)

/-- The greedy string loop of Subscribe/Unsubscribe::parse_frames: collect
strings until `EndOfStream` (which only occurs on the empty iterator). -/
def remainingStrings : List Frame → Except ParseError (List String)
  | [] => .ok []
  | f :: r =>
    match stringOfFrame f with
    | .ok s =>
      match remainingStrings r with
      | .ok rest => .ok (s :: rest)
      | .error e => .error e
    | .error e => .error e

/-- Subscribe::parse_frames (src/cmd/subscribe.rs, lines 43-58): at least one
channel, then any number more. -/
def subscribeParseFrames (parts : List Frame) : Except ParseError (List String) :=
  match nextString parts with
  | .error e => .error e
  | .ok (first, r) =>
    match remainingStrings r with
    | .ok rest => .ok (first :: rest)
    | .error e => .error e

/-- Unsubscribe::parse_frames (src/cmd/subscribe.rs, lines 211-225): zero or
more channels. -/
def unsubscribeParseFrames (parts : List Frame) : Except ParseError (List String) :=
  remainingStrings parts

/-- Ping::parse_frames (src/cmd/ping.rs, lines 18-24): an optional message;
`EndOfStream` means none. -/
def pingParseFrames (parts : List Frame) :
    Except ParseError (Option String × List Frame) :=
  match nextString parts with
  | .ok (s, r) => .ok (some s, r)
  | .error .endOfStream => .ok (none, parts)
  | .error e => .error e

/-- The six recognized command names matched by Command::from_frame. -/
def knownCommandNames : List String :=
  ["get", "set", "publish", "subscribe", "unsubscribe", "ping"]

/-- The `match &command[..]` dispatch of Command::from_frame (src/cmd/mod.rs,
lines 43-56) on the already-lowercased name, including the trailing
`parse.finish()` performed for recognized commands and the early
`Unknown` return (which skips `finish`). -/
def dispatchCommand (low : String) (rest : List Frame) : Except ParseError Command :=
  if low = "get" then
    match getParseFrames rest with
    | .error e => .error e
    | .ok (key, r) =>
      match finishP r with
      | .error e => .error e
      | .ok _ => .ok (.get key)
  else if low = "set" then
    match setParseFrames rest with
    | .error e => .error e
    | .ok ((key, value, expire), r) =>
      match finishP r with
      | .error e => .error e
      | .ok _ => .ok (.set key value expire)
  else if low = "publish" then
    match publishParseFrames rest with
    | .error e => .error e
    | .ok ((channel, message), r) =>
      match finishP r with
      | .error e => .error e
      | .ok _ => .ok (.publish channel message)
  else if low = "subscribe" then
    match subscribeParseFrames rest with
    | .error e => .error e
    | .ok channels => .ok (.subscribe channels)
  else if low = "unsubscribe" then
    match unsubscribeParseFrames rest with
    | .error e => .error e
    | .ok channels => .ok (.unsubscribe channels)
  else if low = "ping" then
    match pingParseFrames rest with
    | .error e => .error e
    | .ok (msg, r) =>
      match finishP r with
      | .error e => .error e
      | .ok _ => .ok (.ping msg)
  else .ok (.unknown low)

/-- Command::from_frame (src/cmd/mod.rs, lines 38-57): require an array, read
the first element as a string, lowercase it, and dispatch.  Note the
subscribe/unsubscribe parsers are greedy, so their `finish` in the source
trivially succeeds; `dispatchCommand` reflects that by omitting it there. -/
def fromFrame : Frame → Except ParseError Command
  | .array parts =>
    match nextString parts with
    | .error e => .error e
    | .ok (name, rest) => dispatchCommand (rustToLowercase name) rest
  | f => .error (.other ("protocol error: expected array but got " ++ frameDebug f))

/-- Command::get_name (src/cmd/mod.rs, lines 60-70). -/
def commandName : Command → String
  | .get _ => "get"
  | .set _ _ _ => "set"
  | .publish _ _ => "publish"
  | .subscribe _ => "subscribe"
  | .unsubscribe _ => "unsubscribe"
  | .ping _ => "ping"
  | .unknown n => n

/-- Response frame of Unknown::apply (src/cmd/unknown.rs, lines 25-32). -/
def unknownResponse (name : String) : Frame :=
  .error ("Err: unknown command \x27" ++ name ++ "\x27")

/-- Response frame of Ping::apply (src/cmd/ping.rs, lines 27-36): `PONG` when
no message was given, else the message bytes as Bulk. -/
def pingResponse : Option String → Frame
  | some msg => .bulk (strBytes msg)
  | none => .simple "PONG"


/-- make_subscribe_frame (src/cmd/subscribe.rs, lines 136-143). -/
def makeSubscribeFrame (channel : String) (subNums : Nat) : Frame :=
  .array [.bulk (strBytes "subscribe"), .bulk (strBytes channel), .integer subNums]

/-- make_unsubscribe_frame (src/cmd/subscribe.rs, lines 147-154). -/
def makeUnsubscribeFrame (channel : String) (subNums : Nat) : Frame :=
  .array [.bulk (strBytes "unsubscribe"), .bulk (strBytes channel), .integer subNums]

/-- make_message_frame (src/cmd/subscribe.rs, lines 157-164). -/
def makeMessageFrame (channel : String) (msg : List Nat) : Frame :=
  .array [.bulk (strBytes "message"), .bulk (strBytes channel), .bulk msg]

/-- StreamMap::remove on the subscription map, modelled on its key list
(keys are unique; the first matching key is removed). -/
def removeKey : List String → String → List String
  | [], _ => []
  | x :: r, ch => if x = ch then r else x :: removeKey r ch

/-- The per-channel loop of the Unsubscribe arm of handle_command
(src/cmd/subscribe.rs, lines 187-192): remove each channel from the
subscription map and emit an unsubscribe reply carrying the remaining
subscription count. -/
def unsubLoop (subs : List String) : List String → List String × List Frame
  | [] => (subs, [])
  | ch :: rest =>
    let subs' := removeKey subs ch
    let out := unsubLoop subs' rest
    (out.1, makeUnsubscribeFrame ch subs'.length :: out.2)

/-- handle_command (src/cmd/subscribe.rs, lines 167-200), the subscribed-mode
command handler, after Command::from_frame has succeeded.  State is the
pending channel list (`self.channels`) and the keys of the subscription map in
insertion order; the result adds the frames written to the client.  Subscribe
extends the pending list; Unsubscribe (empty argument means all current
subscriptions) removes and replies; every other command is answered as
Unknown via its lowercased name and nothing else changes. -/
def handleCommand (c : Command) (channels subs : List String) :
    List String × List String × List Frame :=
  match c with
  | .subscribe chs => (channels ++ chs, subs, [])
  | .unsubscribe chs =>
    let toDrop := if chs.isEmpty then subs else chs
    let out := unsubLoop subs toDrop
    (channels, out.1, out.2)
  | c => (channels, subs, [unknownResponse (commandName c)])

/-- One client frame processed by the subscribed-mode sub-loop: decode with
Command::from_frame (an error closes the connection), then handle_command.
An `ok` result means the sub-loop continues with the new state. -/
def handleFrame (f : Frame) (channels subs : List String) :
    Except ParseError (List String × List String × List Frame) :=
  match fromFrame f with
  | .error e => .error e
  | .ok c => .ok (handleCommand c channels subs)

/-- Entry (src/db.rs, lines 53-61): a stored value with its unique id and
optional absolute deadline (milliseconds). -/
structure Entry where
  id : Nat
  data : List Nat
  expires_at : Option Nat
  deriving DecidableEq

/-- State (src/db.rs, lines 41-50): the database state guarded by the mutex.
`entries` is the key-value `HashMap` (as a functional map), `pub_sub` maps a
channel to its broadcast sender, abstracted to the current receiver count
(receiver lifetimes are not tracked; only used to show pub/sub operations
leave the other fields alone), `expirations` is the `BTreeMap` keyed by
`(deadline, id)`, kept as a list sorted in ascending key order (its iteration
order). -/
structure State where
  entries : String → Option Entry
  pub_sub : String → Option Nat
  expirations : List ((Nat × Nat) × String)
  next_id : Nat
  shutdown : Bool

/-- The empty database state (Db::new). -/
def initState : State :=
  { entries := fun _ => none, pub_sub := fun _ => none,
    expirations := [], next_id := 0, shutdown := false }

/-- Db::get (src/db.rs, lines 103-108): clone the entry data.  No deadline
check is performed on read. -/
def dbGet (s : State) (k : String) : Option (List Nat) :=
  (s.entries k).map (·.data)

/-- State::next_expiration (src/db.rs, lines 235-240): the deadline of the
first `expirations` key (the minimum, by sortedness). -/
def nextExpiration (s : State) : Option Nat :=
  s.expirations.head?.map fun q => q.1.1

/-- Strict lexicographic order on `(deadline, id)` keys, the `BTreeMap`
ordering of `(Instant, u64)`. -/
def keyLt (a b : Nat × Nat) : Prop :=
  a.1 < b.1 ∨ (a.1 = b.1 ∧ a.2 < b.2)

instance (a b : Nat × Nat) : Decidable (keyLt a b) := by
  unfold keyLt; infer_instance

/-- BTreeMap::insert on the sorted pair list: place the new key in order,
replacing an equal key. -/
def expInsert : List ((Nat × Nat) × String) → Nat × Nat → String → List ((Nat × Nat) × String)
  | [], k, v => [(k, v)]
  | (k', v') :: rest, k, v =>
    if keyLt k k' then (k, v) :: (k', v') :: rest
    else if k = k' then (k, v) :: rest
    else (k', v') :: expInsert rest k v

/-- BTreeMap::remove on the sorted pair list. -/
def expErase : List ((Nat × Nat) × String) → Nat × Nat → List ((Nat × Nat) × String)
  | [], _ => []
  | (k', v') :: rest, k => if k' = k then rest else (k', v') :: expErase rest k

/-- BTreeMap lookup on the pair list. -/
def expLookup : List ((Nat × Nat) × String) → Nat × Nat → Option String
  | [], _ => none
  | (k', v') :: rest, k => if k' = k then some v' else expLookup rest k

/-- Removal of the stale expiration pair of the replaced entry, the
`if let Some(prev) = prev` block of Db::set (src/db.rs, lines 145-149). -/
def stalePairErase (exps : List ((Nat × Nat) × String)) :
    Option Entry → List ((Nat × Nat) × String)
  | some p =>
    match p.expires_at with
    | some w => expErase exps (w, p.id)
    | none => exps
  | none => exps

/-- Db::set (src/db.rs, lines 111-156).  Allocates the next id; with an expiry
`d` the deadline is `now + d`, the notify flag compares the pre-insertion
minimum deadline against it (`expiration > when`, true when the index was
empty), and the new pair is inserted before the stale pair of the previous
entry is removed.  Returns the new state and the notify flag (whether
`background_task.notify_one()` is called after the lock is dropped). -/
def dbSet (s : State) (now : Nat) (key : String) (value : List Nat)
    (expire : Option Nat) : State × Bool :=
  match expire with
  | none =>
    ({ entries := fun k => if k = key then some ⟨s.next_id, value, none⟩ else s.entries k,
       pub_sub := s.pub_sub,
       expirations := stalePairErase s.expirations (s.entries key),
       next_id := s.next_id + 1,
       shutdown := s.shutdown }, false)
  | some d =>
    ({ entries := fun k => if k = key then some ⟨s.next_id, value, some (now + d)⟩ else s.entries k,
       pub_sub := s.pub_sub,
       expirations := stalePairErase (expInsert s.expirations (now + d, s.next_id) key)
         (s.entries key),
       next_id := s.next_id + 1,
       shutdown := s.shutdown },
     match nextExpiration s with
     | some m => decide (now + d < m)
     | none => true)

/-- Db::subscribe (src/db.rs, lines 159-175): get or create the broadcast
sender of the channel and return a fresh receiver (modelled by the incremented
receiver count). -/
def dbSubscribe (s : State) (ch : String) : State × Nat :=
  match s.pub_sub ch with
  | some n =>
    ({ s with pub_sub := fun c => if c = ch then some (n + 1) else s.pub_sub c }, n + 1)
  | none =>
    ({ s with pub_sub := fun c => if c = ch then some 1 else s.pub_sub c }, 1)

/-- Db::publish (src/db.rs, lines 178-187): the number of receivers the send
reached; 0 when the channel has no sender (or the send fails). -/
def dbPublish (s : State) (ch : String) : Nat :=
  (s.pub_sub ch).getD 0

/-- Db::shutdown_purge_task (src/db.rs, lines 190-196): set the shutdown flag;
the notification is always sent (the returned flag). -/
def dbShutdownPurgeTask (s : State) : State × Bool :=
  ({ s with shutdown := true }, true)

/-- The scan loop of Shared::purge_expired_keys (src/db.rs, lines 214-222):
remove leading pairs whose deadline has passed (and their entries), stopping
at the first pair with `when > now`, whose deadline is returned. -/
def purgeLoop (now : Nat) :
    List ((Nat × Nat) × String) → (String → Option Entry) →
    List ((Nat × Nat) × String) × (String → Option Entry) × Option Nat
  | [], es => ([], es, none)
  | ((w, i), key) :: rest, es =>
    if now < w then (((w, i), key) :: rest, es, some w)
    else purgeLoop now rest fun k => if k = key then none else es k

/-- Shared::purge_expired_keys (src/db.rs, lines 203-225): no-op returning
`none` under shutdown, else one reaper pass over the expirations index. -/
def purgeExpiredKeys (s : State) (now : Nat) : State × Option Nat :=
  if s.shutdown then (s, none)
  else
    let r := purgeLoop now s.expirations s.entries
    ({ s with expirations := r.1, entries := r.2.1 }, r.2.2)

/-- What one iteration of the reaper task does after waking. -/
inductive ReaperOutcome where
  | exited
  | panicked
  | waiting
  deriving DecidableEq

/-- One iteration of purge_expired_tasks (src/db.rs, lines 243-260): exit if
shutdown; otherwise purge.  When purge returns a next deadline the source
selects over `sleep_until`/`notified` and then unconditionally executes
`todo!()`, which panics and kills the background task - modelled as
`panicked`.  When purge returns `none` the task waits for a notification. -/
def reaperStep (s : State) (now : Nat) : State × ReaperOutcome :=
  if s.shutdown then (s, .exited)
  else
    let r := purgeExpiredKeys s now
    match r.2 with
    | some _ => (r.1, .panicked)
    | none => (r.1, .waiting)

/-- Outcome of Command::apply in the normal (non-subscribed) connection loop
(src/cmd/mod.rs, lines 72-89): a response frame with the possibly-updated
state and reaper notify flag; entry into the subscribed sub-loop; a panic
(the Ping arm is `unimplemented!()`); or an error returned to the handler
(the Unsubscribe arm). -/
inductive ApplyOutcome where
  | ok (s : State) (response : Frame) (notified : Bool)
  | subscribeEntered (channels : List String)
  | panicked
  | errored (msg : String)

/-- Command::apply (src/cmd/mod.rs, lines 72-89) together with the per-command
apply bodies of Get::apply, Set::apply, Publish::apply and Unknown::apply.
The Ping arm of the dispatcher is `unimplemented!()`: it panics without ever
reaching Ping::apply. -/
def commandApply (c : Command) (s : State) (now : Nat) : ApplyOutcome :=
  match c with
  | .get k =>
    .ok s (match dbGet s k with
           | some v => .bulk v
           | none => .null) false
  | .set k v e =>
    let r := dbSet s now k v e
    .ok r.1 (.simple "OK") r.2
  | .publish ch _ => .ok s (.integer (dbPublish s ch)) false
  | .subscribe chs => .subscribeEntered chs
  | .ping _ => .panicked
  | .unknown n => .ok s (unknownResponse n) false
  | .unsubscribe _ => .errored "Unsubscribe is not support in this context"


/-- Invariant clause 1 (spec section 3): every entry with a deadline has its
`(deadline, id)` pair in the expirations index, mapping back to its key. -/
def InvA (es : String → Option Entry) (xs : List ((Nat × Nat) × String)) : Prop :=
  ∀ k e t, es k = some e → e.expires_at = some t → expLookup xs (t, e.id) = some k

/-- Invariant clause 2 (spec section 3): every pair `(t, id) → K` of the
expirations index corresponds to an existing entry `K` with exactly that
deadline and id.  (This clause also forces entries without a deadline to own
no pair, and each entry to own at most one.) -/
def InvB (es : String → Option Entry) (xs : List ((Nat × Nat) × String)) : Prop :=
  ∀ t i k, expLookup xs (t, i) = some k →
    ∃ e, es k = some e ∧ e.expires_at = some t ∧ e.id = i

/-- Invariant clause 3 (spec section 3): `next_id` is strictly greater than
every id ever issued, in particular every id stored in `entries`. -/
def InvC (es : String → Option Entry) (nid : Nat) : Prop :=
  ∀ k e, es k = some e → e.id < nid

/-- Representation invariant of the `BTreeMap`: the pair list is sorted in
strictly ascending key order. -/
def expSorted (xs : List ((Nat × Nat) × String)) : Prop :=
  List.Pairwise (fun a b => keyLt a.1 b.1) xs

/-- The database state invariant (spec section 3). -/
def Inv (s : State) : Prop :=
  InvA s.entries s.expirations ∧ InvB s.entries s.expirations ∧
    InvC s.entries s.next_id ∧ expSorted s.expirations

theorem keyLt_irrefl (a : Nat × Nat) : ¬ keyLt a a := by
  rcases a with ⟨x, y⟩
  rintro (h | ⟨-, h⟩) <;> exact Nat.lt_irrefl _ h

theorem keyLt_trans {a b c : Nat × Nat} (h₁ : keyLt a b) (h₂ : keyLt b c) : keyLt a c := by
  rcases a with ⟨a1, a2⟩; rcases b with ⟨b1, b2⟩; rcases c with ⟨c1, c2⟩
  rcases h₁ with h₁ | ⟨e₁, h₁⟩ <;> rcases h₂ with h₂ | ⟨e₂, h₂⟩
  · exact Or.inl (Nat.lt_trans h₁ h₂)
  · exact Or.inl (e₂ ▸ h₁)
  · exact Or.inl (e₁ ▸ h₂)
  · exact Or.inr ⟨e₁.trans e₂, Nat.lt_trans h₁ h₂⟩

theorem keyLt_of_not_of_ne {a b : Nat × Nat} (h : ¬ keyLt a b) (hne : a ≠ b) : keyLt b a := by
  rcases a with ⟨a1, a2⟩; rcases b with ⟨b1, b2⟩
  unfold keyLt at *
  rcases Nat.lt_trichotomy a1 b1 with h1 | h1 | h1
  · exact absurd (Or.inl h1) h
  · rcases Nat.lt_trichotomy a2 b2 with h2 | h2 | h2
    · exact absurd (Or.inr ⟨h1, h2⟩) h
    · exact absurd (by simp [h1, h2]) hne
    · exact Or.inr ⟨h1.symm, h2⟩
  · exact Or.inl h1

theorem keyLt_ne {a b : Nat × Nat} (h : keyLt a b) : a ≠ b := by
  rintro rfl; exact keyLt_irrefl a h

theorem expLookup_insert_self (l : List ((Nat × Nat) × String)) (k : Nat × Nat) (v : String) :
    expLookup (expInsert l k v) k = some v := by
  induction l with
  | nil => simp [expInsert, expLookup]
  | cons q rest ih =>
    obtain ⟨qk, qv⟩ := q
    by_cases h1 : keyLt k qk
    · simp [expInsert, if_pos h1, expLookup]
    · by_cases h2 : k = qk
      · subst h2
        simp [expInsert, if_neg h1, expLookup]
      · have h2' : ¬ qk = k := fun h => h2 h.symm
        simp only [expInsert, if_neg h1, if_neg h2, expLookup, if_neg h2']
        exact ih

theorem expLookup_insert_ne (l : List ((Nat × Nat) × String)) (k : Nat × Nat) (v : String)
    {b : Nat × Nat} (hne : b ≠ k) : expLookup (expInsert l k v) b = expLookup l b := by
  have hkb : ¬ k = b := fun h => hne h.symm
  induction l with
  | nil => simp only [expInsert, expLookup, if_neg hkb]
  | cons q rest ih =>
    obtain ⟨qk, qv⟩ := q
    by_cases h1 : keyLt k qk
    · simp only [expInsert, if_pos h1, expLookup, if_neg hkb]
    · by_cases h2 : k = qk
      · subst h2
        simp only [expInsert, if_neg h1, if_pos rfl, expLookup, if_neg hkb]
      · simp only [expInsert, if_neg h1, if_neg h2, expLookup, ih]

theorem expLookup_erase_ne (l : List ((Nat × Nat) × String)) (k : Nat × Nat)
    {b : Nat × Nat} (hne : b ≠ k) : expLookup (expErase l k) b = expLookup l b := by
  induction l with
  | nil => simp [expErase]
  | cons q rest ih =>
    obtain ⟨qk, qv⟩ := q
    by_cases h1 : qk = k
    · subst h1
      have hbk : ¬ qk = b := fun h => hne h.symm
      simp [expErase, expLookup, hbk]
    · simp only [expErase, if_neg h1, expLookup, ih]

theorem expLookup_eq_none_of_forall (l : List ((Nat × Nat) × String)) (k : Nat × Nat)
    (h : ∀ q ∈ l, q.1 ≠ k) : expLookup l k = none := by
  induction l with
  | nil => rfl
  | cons q rest ih =>
    obtain ⟨qk, qv⟩ := q
    have hqk : qk ≠ k := h (qk, qv) (List.mem_cons_self _ rest)
    simp only [expLookup, if_neg hqk]
    exact ih fun q' hq' => h q' (List.mem_cons_of_mem _ hq')

theorem expLookup_erase_self (l : List ((Nat × Nat) × String)) (k : Nat × Nat)
    (hs : expSorted l) : expLookup (expErase l k) k = none := by
  induction l with
  | nil => rfl
  | cons q rest ih =>
    rcases List.pairwise_cons.mp hs with ⟨hq, hrest⟩
    obtain ⟨qk, qv⟩ := q
    by_cases h1 : qk = k
    · simp only [expErase, if_pos h1]
      exact expLookup_eq_none_of_forall rest k fun q' hq' =>
        Ne.symm (keyLt_ne (h1 ▸ hq q' hq'))
    · simp only [expErase, if_neg h1, expLookup, if_neg h1]
      exact ih hrest

theorem mem_expInsert {l : List ((Nat × Nat) × String)} {k : Nat × Nat} {v : String}
    {x : (Nat × Nat) × String} (hx : x ∈ expInsert l k v) : x = (k, v) ∨ x ∈ l := by
  induction l with
  | nil => simpa [expInsert] using hx
  | cons q rest ih =>
    obtain ⟨qk, qv⟩ := q
    by_cases h1 : keyLt k qk
    · simpa [expInsert, h1] using hx
    · by_cases h2 : k = qk
      · simp only [expInsert, if_neg h1, if_pos h2, List.mem_cons] at hx
        rcases hx with h | h
        · exact Or.inl h
        · exact Or.inr (List.mem_cons_of_mem _ h)
      · simp only [expInsert, if_neg h1, if_neg h2, List.mem_cons] at hx
        rcases hx with h | h
        · exact Or.inr (List.mem_cons.mpr (Or.inl h))
        · rcases ih h with h' | h'
          · exact Or.inl h'
          · exact Or.inr (List.mem_cons_of_mem _ h')

theorem expSorted_insert (l : List ((Nat × Nat) × String)) (k : Nat × Nat) (v : String)
    (hs : expSorted l) : expSorted (expInsert l k v) := by
  induction l with
  | nil => simp [expInsert, expSorted]
  | cons q rest ih =>
    rcases List.pairwise_cons.mp hs with ⟨hq, hrest⟩
    obtain ⟨qk, qv⟩ := q
    by_cases h1 : keyLt k qk
    · simp only [expInsert, if_pos h1]
      refine List.pairwise_cons.mpr ⟨?_, hs⟩
      intro x hx
      rcases List.mem_cons.mp hx with rfl | hx
      · exact h1
      · exact keyLt_trans h1 (hq x hx)
    · by_cases h2 : k = qk
      · simp only [expInsert, if_neg h1, if_pos h2]
        refine List.pairwise_cons.mpr ⟨?_, hrest⟩
        intro x hx
        subst h2
        exact hq x hx
      · simp only [expInsert, if_neg h1, if_neg h2]
        refine List.pairwise_cons.mpr ⟨?_, ih hrest⟩
        intro x hx
        rcases mem_expInsert hx with rfl | hx
        · exact keyLt_of_not_of_ne h1 h2
        · exact hq x hx

theorem expErase_sublist (l : List ((Nat × Nat) × String)) (k : Nat × Nat) :
    (expErase l k).Sublist l := by
  induction l with
  | nil => simp [expErase]
  | cons q rest ih =>
    obtain ⟨qk, qv⟩ := q
    by_cases h1 : qk = k
    · simp only [expErase, if_pos h1]
      exact List.sublist_cons_self _ rest
    · simp only [expErase, if_neg h1]
      exact List.Sublist.cons₂ _ ih

theorem expSorted_erase (l : List ((Nat × Nat) × String)) (k : Nat × Nat)
    (hs : expSorted l) : expSorted (expErase l k) :=
  List.Pairwise.sublist (expErase_sublist l k) hs


theorem Inv_dbSet (s : State) (now : Nat) (key : String) (value : List Nat)
    (expire : Option Nat) (h : Inv s) : Inv (dbSet s now key value expire).1 := by
  obtain ⟨hA, hB, hC, hS⟩ := h
  cases expire with
  | none =>
    refine ⟨?_, ?_, ?_, ?_⟩
    · intro k e t hk he
      dsimp only [dbSet] at hk ⊢
      by_cases hkey : k = key
      · rw [if_pos hkey] at hk
        cases hk
        simp at he
      · rw [if_neg hkey] at hk
        have hx := hA k e t hk he
        rcases hp : s.entries key with _ | p
        · simpa [stalePairErase] using hx
        · rcases hpe : p.expires_at with _ | pw
          · simpa [stalePairErase, hpe] using hx
          · have hkk : expLookup s.expirations (pw, p.id) = some key := hA key p pw hp hpe
            have hne : ((t : Nat), e.id) ≠ (pw, p.id) := by
              intro hEq
              rw [hEq, hkk] at hx
              injection hx with hx
              exact hkey hx.symm
            simp only [stalePairErase, hpe]
            rw [expLookup_erase_ne _ _ hne]
            exact hx
    · intro t i k hk
      dsimp only [dbSet] at hk ⊢
      rcases hp : s.entries key with _ | p
      · rw [hp] at hk
        simp only [stalePairErase] at hk
        obtain ⟨e, he1, he2, he3⟩ := hB t i k hk
        by_cases hkey : k = key
        · exfalso
          rw [hkey, hp] at he1
          cases he1
        · exact ⟨e, by rw [if_neg hkey]; exact he1, he2, he3⟩
      · rcases hpe : p.expires_at with _ | pw
        · rw [hp] at hk
          simp only [stalePairErase, hpe] at hk
          obtain ⟨e, he1, he2, he3⟩ := hB t i k hk
          by_cases hkey : k = key
          · exfalso
            rw [hkey, hp] at he1
            injection he1 with he1
            subst he1
            rw [hpe] at he2
            cases he2
          · exact ⟨e, by rw [if_neg hkey]; exact he1, he2, he3⟩
        · rw [hp] at hk
          simp only [stalePairErase, hpe] at hk
          by_cases hb2 : ((t : Nat), i) = (pw, p.id)
          · rw [hb2, expLookup_erase_self _ _ hS] at hk
            cases hk
          · rw [expLookup_erase_ne _ _ hb2] at hk
            obtain ⟨e, he1, he2, he3⟩ := hB t i k hk
            by_cases hkey : k = key
            · exfalso
              rw [hkey, hp] at he1
              injection he1 with he1
              subst he1
              rw [hpe] at he2
              injection he2 with he2
              exact hb2 (by rw [← he2, ← he3])
            · exact ⟨e, by rw [if_neg hkey]; exact he1, he2, he3⟩
    · intro k e hk
      dsimp only [dbSet] at hk
      by_cases hkey : k = key
      · rw [if_pos hkey] at hk
        cases hk
        exact Nat.lt_succ_self _
      · rw [if_neg hkey] at hk
        exact Nat.lt_succ_of_lt (hC k e hk)
    · dsimp only [dbSet]
      rcases hp : s.entries key with _ | p
      · simpa [stalePairErase] using hS
      · rcases hpe : p.expires_at with _ | pw
        · simpa [stalePairErase, hpe] using hS
        · simp only [stalePairErase, hpe]
          exact expSorted_erase _ _ hS
  | some d =>
    have hS1 : expSorted (expInsert s.expirations (now + d, s.next_id) key) :=
      expSorted_insert _ _ _ hS
    refine ⟨?_, ?_, ?_, ?_⟩
    · intro k e t hk he
      dsimp only [dbSet] at hk ⊢
      by_cases hkey : k = key
      · rw [if_pos hkey] at hk
        cases hk
        injection he with he
        have hself : expLookup (expInsert s.expirations (now + d, s.next_id) key)
            (t, s.next_id) = some key := by
          rw [← he]
          exact expLookup_insert_self _ _ _
        rw [hkey]
        rcases hp : s.entries key with _ | p
        · simpa [stalePairErase] using hself
        · rcases hpe : p.expires_at with _ | pw
          · simpa [stalePairErase, hpe] using hself
          · have hne : ((t : Nat), s.next_id) ≠ (pw, p.id) := fun hEq =>
              Nat.ne_of_lt (hC key p hp) (congrArg Prod.snd hEq).symm
            simp only [stalePairErase, hpe]
            rw [expLookup_erase_ne _ _ hne]
            exact hself
      · rw [if_neg hkey] at hk
        have hx := hA k e t hk he
        have hne1 : ((t : Nat), e.id) ≠ (now + d, s.next_id) := fun hEq =>
          Nat.ne_of_lt (hC k e hk) (congrArg Prod.snd hEq)
        have hx1 : expLookup (expInsert s.expirations (now + d, s.next_id) key)
            (t, e.id) = some k := by
          rw [expLookup_insert_ne _ _ _ hne1]
          exact hx
        rcases hp : s.entries key with _ | p
        · simpa [stalePairErase] using hx1
        · rcases hpe : p.expires_at with _ | pw
          · simpa [stalePairErase, hpe] using hx1
          · have hkk : expLookup s.expirations (pw, p.id) = some key := hA key p pw hp hpe
            have hne2 : ((t : Nat), e.id) ≠ (pw, p.id) := by
              intro hEq
              rw [hEq, hkk] at hx
              injection hx with hx
              exact hkey hx.symm
            simp only [stalePairErase, hpe]
            rw [expLookup_erase_ne _ _ hne2]
            exact hx1
    · intro t i k hk
      dsimp only [dbSet] at hk ⊢
      rcases hp : s.entries key with _ | p
      · rw [hp] at hk
        simp only [stalePairErase] at hk
        by_cases hb : ((t : Nat), i) = (now + d, s.next_id)
        · rw [hb, expLookup_insert_self] at hk
          injection hk with hk
          refine ⟨⟨s.next_id, value, some (now + d)⟩, ?_, ?_, ?_⟩
          · rw [← hk, if_pos rfl]
          · exact congrArg some (congrArg Prod.fst hb).symm
          · exact (congrArg Prod.snd hb).symm
        · rw [expLookup_insert_ne _ _ _ hb] at hk
          obtain ⟨e, he1, he2, he3⟩ := hB t i k hk
          by_cases hkey : k = key
          · exfalso
            rw [hkey, hp] at he1
            cases he1
          · exact ⟨e, by rw [if_neg hkey]; exact he1, he2, he3⟩
      · rcases hpe : p.expires_at with _ | pw
        · rw [hp] at hk
          simp only [stalePairErase, hpe] at hk
          by_cases hb : ((t : Nat), i) = (now + d, s.next_id)
          · rw [hb, expLookup_insert_self] at hk
            injection hk with hk
            refine ⟨⟨s.next_id, value, some (now + d)⟩, ?_, ?_, ?_⟩
            · rw [← hk, if_pos rfl]
            · exact congrArg some (congrArg Prod.fst hb).symm
            · exact (congrArg Prod.snd hb).symm
          · rw [expLookup_insert_ne _ _ _ hb] at hk
            obtain ⟨e, he1, he2, he3⟩ := hB t i k hk
            by_cases hkey : k = key
            · exfalso
              rw [hkey, hp] at he1
              injection he1 with he1
              subst he1
              rw [hpe] at he2
              cases he2
            · exact ⟨e, by rw [if_neg hkey]; exact he1, he2, he3⟩
        · rw [hp] at hk
          simp only [stalePairErase, hpe] at hk
          by_cases hb2 : ((t : Nat), i) = (pw, p.id)
          · rw [hb2, expLookup_erase_self _ _ hS1] at hk
            cases hk
          · rw [expLookup_erase_ne _ _ hb2] at hk
            by_cases hb : ((t : Nat), i) = (now + d, s.next_id)
            · rw [hb, expLookup_insert_self] at hk
              injection hk with hk
              refine ⟨⟨s.next_id, value, some (now + d)⟩, ?_, ?_, ?_⟩
              · rw [← hk, if_pos rfl]
              · exact congrArg some (congrArg Prod.fst hb).symm
              · exact (congrArg Prod.snd hb).symm
            · rw [expLookup_insert_ne _ _ _ hb] at hk
              obtain ⟨e, he1, he2, he3⟩ := hB t i k hk
              by_cases hkey : k = key
              · exfalso
                rw [hkey, hp] at he1
                injection he1 with he1
                subst he1
                rw [hpe] at he2
                injection he2 with he2
                exact hb2 (by rw [← he2, ← he3])
              · exact ⟨e, by rw [if_neg hkey]; exact he1, he2, he3⟩
    · intro k e hk
      dsimp only [dbSet] at hk
      by_cases hkey : k = key
      · rw [if_pos hkey] at hk
        cases hk
        exact Nat.lt_succ_self _
      · rw [if_neg hkey] at hk
        exact Nat.lt_succ_of_lt (hC k e hk)
    · dsimp only [dbSet]
      rcases hp : s.entries key with _ | p
      · simpa [stalePairErase] using hS1
      · rcases hpe : p.expires_at with _ | pw
        · simpa [stalePairErase, hpe] using hS1
        · simp only [stalePairErase, hpe]
          exact expSorted_erase _ _ hS1

theorem dbSet_stale_removed (s : State) (now : Nat) (key : String) (value : List Nat)
    (expire : Option Nat) (p : Entry) (pw : Nat) (h : Inv s)
    (hp : s.entries key = some p) (hpe : p.expires_at = some pw) :
    expLookup (dbSet s now key value expire).1.expirations (pw, p.id) = none := by
  obtain ⟨hA, hB, hC, hS⟩ := h
  cases expire with
  | none =>
    dsimp only [dbSet]
    rw [hp]
    simp only [stalePairErase, hpe]
    exact expLookup_erase_self _ _ hS
  | some d =>
    dsimp only [dbSet]
    rw [hp]
    simp only [stalePairErase, hpe]
    exact expLookup_erase_self _ _ (expSorted_insert _ _ _ hS)

theorem purgeLoop_inv (now : Nat) (xs : List ((Nat × Nat) × String))
    (es : String → Option Entry) (nid : Nat)
    (hA : InvA es xs) (hB : InvB es xs) (hC : InvC es nid) (hS : expSorted xs) :
    InvA (purgeLoop now xs es).2.1 (purgeLoop now xs es).1 ∧
    InvB (purgeLoop now xs es).2.1 (purgeLoop now xs es).1 ∧
    InvC (purgeLoop now xs es).2.1 nid ∧ expSorted (purgeLoop now xs es).1 := by
  induction xs generalizing es with
  | nil => exact ⟨hA, hB, hC, hS⟩
  | cons q rest ih =>
    obtain ⟨⟨w, i⟩, kk⟩ := q
    rcases List.pairwise_cons.mp hS with ⟨hq, hrest⟩
    by_cases hnow : now < w
    · simp only [purgeLoop, if_pos hnow]
      exact ⟨hA, hB, hC, hS⟩
    · simp only [purgeLoop, if_neg hnow]
      have hheadB := hB w i kk (by simp [expLookup])
      apply ih
      · intro k e t hk he
        have hk' : (if k = kk then none else es k) = some e := hk
        by_cases hkk : k = kk
        · rw [if_pos hkk] at hk'
          cases hk'
        · rw [if_neg hkk] at hk'
          have hx := hA k e t hk' he
          simp only [expLookup] at hx
          by_cases hb : ((w : Nat), i) = (t, e.id)
          · rw [if_pos hb] at hx
            injection hx with hx
            exact absurd hx.symm hkk
          · rwa [if_neg hb] at hx
      · intro t i' k hk
        have hb : ((w : Nat), i) ≠ (t, i') := by
          intro hEq
          have hnone : expLookup rest (t, i') = none := by
            apply expLookup_eq_none_of_forall
            intro q' hq'
            rw [← hEq]
            exact Ne.symm (keyLt_ne (hq q' hq'))
          rw [hnone] at hk
          cases hk
        have hx : expLookup (((w, i), kk) :: rest) (t, i') = some k := by
          simp only [expLookup, if_neg hb]
          exact hk
        obtain ⟨e, he1, he2, he3⟩ := hB t i' k hx
        by_cases hkk : k = kk
        · exfalso
          obtain ⟨e2, hf1, hf2, hf3⟩ := hheadB
          rw [hkk] at he1
          rw [he1] at hf1
          injection hf1 with hf1
          subst hf1
          rw [he2] at hf2
          injection hf2 with hf2
          rw [he3] at hf3
          exact hb (by rw [hf2, hf3])
        · exact ⟨e, by simp only [if_neg hkk]; exact he1, he2, he3⟩
      · intro k e hk
        have hk' : (if k = kk then none else es k) = some e := hk
        by_cases hkk : k = kk
        · rw [if_pos hkk] at hk'
          cases hk'
        · rw [if_neg hkk] at hk'
          exact hC k e hk'
      · exact hrest

theorem Inv_purgeExpiredKeys (s : State) (now : Nat) (h : Inv s) :
    Inv (purgeExpiredKeys s now).1 := by
  obtain ⟨hA, hB, hC, hS⟩ := h
  by_cases hsd : s.shutdown
  · simp only [purgeExpiredKeys, if_pos hsd]
    exact ⟨hA, hB, hC, hS⟩
  · simp only [purgeExpiredKeys, if_neg hsd]
    exact purgeLoop_inv now s.expirations s.entries s.next_id hA hB hC hS

theorem Inv_dbSubscribe (s : State) (ch : String) (h : Inv s) :
    Inv (dbSubscribe s ch).1 := by
  obtain ⟨hA, hB, hC, hS⟩ := h
  rcases hp : s.pub_sub ch with _ | n
  · simp only [dbSubscribe, hp]
    exact ⟨hA, hB, hC, hS⟩
  · simp only [dbSubscribe, hp]
    exact ⟨hA, hB, hC, hS⟩

theorem Inv_initState : Inv initState := by
  refine ⟨?_, ?_, ?_, ?_⟩
  · intro k e t hk
    cases hk
  · intro t i k hk
    cases hk
  · intro k e hk
    cases hk
  · exact List.Pairwise.nil


theorem keyLt_fst_le {a b : Nat × Nat} (h : keyLt a b) : a.1 ≤ b.1 := by
  rcases h with h | ⟨h, -⟩
  · exact Nat.le_of_lt h
  · exact Nat.le_of_eq h

/-- C2: the Ping arm of Command::apply is `unimplemented!()` and panics for every
PING in normal mode, aborting the connection handler, although Ping::apply
itself (never reached from the dispatcher) would reply Simple("PONG") without
a message and Bulk(msg) with one.  This contradicts the Ping contract of the spec
and the client tests of the repository itself. -/
theorem ping_normal_mode_panics :
    (∀ m (s : State) (now : Nat), commandApply (.ping m) s now = ApplyOutcome.panicked) ∧
    pingResponse none = Frame.simple "PONG" ∧
    (∀ msg, pingResponse (some msg) = Frame.bulk (strBytes msg)) :=
  ⟨fun _ _ _ => rfl, rfl, fun _ => rfl⟩

/-- C3: the Null arm of write_value emits only the four bytes `-1\r\n` - the
leading `$` of the RESP grammar is missing - so the emitted bytes re-parse as
the Error frame "1", not Null; the five-byte grammar form `$-1\r\n` does
parse back to Null, which the parser and test suite of the source expect.
Also, write_frame panics (`unreachable!`) on any nested array, so encode
after decode cannot be the identity on such frames. -/
theorem null_encoding_missing_dollar :
    writeFrame Frame.null = some [45, 49, 13, 10] ∧
    parseF 1 [45, 49, 13, 10] = ParseOut.ok (Frame.error "1") [] ∧
    parseF 1 [36, 45, 49, 13, 10] = ParseOut.ok Frame.null [] ∧
    writeFrame (Frame.array [Frame.array []]) = none := by
  refine ⟨rfl, ?_, ?_, rfl⟩
  · have h1 : utf8Decode [49] = some [Char.ofNat 49] := rfl
    simp [parseF, getU8, getLine, stringFromUtf8, h1]
  · simp [parseF, getU8, getLine]

/-- C9: write_frame serializes an Array at top level as the `*` byte, the
decimal element count, CRLF, then each element through write_value, while
write_value itself refuses (panics on) an Array argument; applied only to
non-array frames, write_value always succeeds, so its refusing arm is
unreachable from write_frame on flat arrays. -/
theorem write_value_refuses_array (f : Frame) (xs : List Frame) :
    (isArrayFrame f = false → (writeValue f).isSome = true) ∧
    writeValue (Frame.array xs) = none ∧
    ((∀ x ∈ xs, isArrayFrame x = false) →
      ∃ parts, mapWriteValue xs = some parts ∧
        writeFrame (Frame.array xs) =
          some (42 :: (natDecimalBytes xs.length ++ [13, 10] ++ parts.flatten))) := by
  refine ⟨?_, rfl, ?_⟩
  · intro hf
    cases f <;> simp_all [writeValue, isArrayFrame]
  · intro hall
    suffices hsuff : ∃ parts, mapWriteValue xs = some parts by
      obtain ⟨parts, hp⟩ := hsuff
      exact ⟨parts, hp, by simp [writeFrame, hp]⟩
    induction xs with
    | nil => exact ⟨[], rfl⟩
    | cons x r ih =>
      have hx : isArrayFrame x = false := hall x (List.mem_cons_self _ _)
      have hxv : ∃ bs, writeValue x = some bs := by
        cases x <;> simp_all [writeValue, isArrayFrame]
      obtain ⟨bs, hbs⟩ := hxv
      obtain ⟨parts, hp⟩ := ih fun y hy => hall y (List.mem_cons_of_mem _ hy)
      exact ⟨bs :: parts, by simp [mapWriteValue, hbs, hp]⟩

theorem write_value_refuses_array_witness :
    (writeValue (Frame.simple "x")).isSome = true ∧
    writeValue (Frame.array []) = none ∧
    ∃ parts, mapWriteValue [Frame.integer 7] = some parts ∧
      writeFrame (Frame.array [Frame.integer 7]) =
        some (42 :: (natDecimalBytes [Frame.integer 7].length ++ [13, 10] ++ parts.flatten)) :=
  ⟨(write_value_refuses_array (Frame.simple "x") []).1 rfl,
   (write_value_refuses_array (Frame.simple "x") []).2.1,
   (write_value_refuses_array (Frame.simple "x") [Frame.integer 7]).2.2
     (by intro x hx; rw [List.mem_singleton] at hx; subst hx; rfl)⟩

/-- C4: the database operations preserve the state invariant: every deadlined
entry owns exactly its `(deadline, id)` pair in `expirations` and that pair
maps back to its key, every pair corresponds to an existing entry with that
deadline and id (so entries without a deadline own no pair), ids stay below
`next_id`, and the index stays sorted.  This covers SET (including the
removal of the stale pair of a replaced entry, stated separately as the fourth
conjunct), one reaper pass, and SUBSCRIBE; GET and PUBLISH do not modify the
state at all in the source (they take `&self` and only read under the lock),
which the embedding reflects by giving `dbGet`/`dbPublish` read-only types. -/
theorem db_operations_preserve_invariant (s : State) (h : Inv s) :
    (∀ now key value expire, Inv (dbSet s now key value expire).1) ∧
    (∀ now, Inv (purgeExpiredKeys s now).1) ∧
    (∀ ch, Inv (dbSubscribe s ch).1) ∧
    (∀ now key value expire p pw, s.entries key = some p → p.expires_at = some pw →
      expLookup (dbSet s now key value expire).1.expirations (pw, p.id) = none) ∧
    (∀ k e t i, s.entries k = some e → e.expires_at = none →
      expLookup s.expirations (t, i) ≠ some k) := by
  refine ⟨fun now key value expire => Inv_dbSet s now key value expire h,
    fun now => Inv_purgeExpiredKeys s now h,
    fun ch => Inv_dbSubscribe s ch h,
    fun now key value expire p pw hp hpe =>
      dbSet_stale_removed s now key value expire p pw h hp hpe,
    ?_⟩
  intro k e t i hk he hcontra
  obtain ⟨e2, hf1, hf2, -⟩ := h.2.1 t i k hcontra
  rw [hk] at hf1
  injection hf1 with hf1
  subst hf1
  rw [he] at hf2
  cases hf2

theorem db_operations_preserve_invariant_witness :
    Inv (dbSet initState 0 "hello" [1, 2] (some 5)).1 :=
  (db_operations_preserve_invariant initState Inv_initState).1 0 "hello" [1, 2] (some 5)

/-- C7: for a SET with a deadline, the notify flag is true exactly when the
expirations index was empty before the insertion or the new deadline
`now + d` is strictly earlier than the pre-insertion minimum deadline (the
head of the sorted index, shown to be minimal in the second conjunct); a SET
without a deadline never notifies. -/
theorem set_notify_iff (s : State) (now : Nat) (key : String) (value : List Nat)
    (d : Nat) (h : Inv s) :
    ((dbSet s now key value (some d)).2 = true ↔
      (s.expirations = [] ∨ ∃ m, nextExpiration s = some m ∧ now + d < m)) ∧
    (∀ q ∈ s.expirations, ∃ m, nextExpiration s = some m ∧ m ≤ q.1.1) ∧
    (dbSet s now key value none).2 = false := by
  obtain ⟨hA, hB, hC, hS⟩ := h
  refine ⟨?_, ?_, rfl⟩
  · cases hxs : s.expirations with
    | nil => simp [dbSet, nextExpiration, hxs]
    | cons q rest =>
      simp [dbSet, nextExpiration, hxs]
  · intro q hq
    cases hxs : s.expirations with
    | nil => rw [hxs] at hq; cases hq
    | cons q0 rest =>
      refine ⟨q0.1.1, by simp [nextExpiration, hxs], ?_⟩
      rw [hxs] at hq
      rcases List.mem_cons.mp hq with rfl | hq
      · exact Nat.le_refl _
      · rw [hxs] at hS
        rcases List.pairwise_cons.mp hS with ⟨hq0, -⟩
        exact keyLt_fst_le (hq0 q hq)

theorem set_notify_iff_witness :
    (dbSet initState 0 "k" [] (some 5)).2 = true :=
  ((set_notify_iff initState 0 "k" [] 5 Inv_initState).1).mpr (Or.inl rfl)

/-- C1: code bug.  After `SET k v PX D` on the empty database at time 0 the
notify flag wakes the reaper; when the reaper runs any pass at a time
`t < D` it finds the pending deadline, and the source then executes the
`todo!()` after its sleep/notify select, which panics and kills the
background task, so the entry is never removed; since Db::get never checks
`expires_at`, a GET at any time, in particular at or after the deadline, still returns
Bulk(v) instead of the Null the claim requires. -/
theorem expired_entry_never_removed (k : String) (v : List Nat) (D t : Nat)
    (ht : t < D) :
    (dbSet initState 0 k v (some D)).2 = true ∧
    dbGet (dbSet initState 0 k v (some D)).1 k = some v ∧
    (reaperStep (dbSet initState 0 k v (some D)).1 t).2 = ReaperOutcome.panicked ∧
    (∀ t', D ≤ t' → dbGet (dbSet initState 0 k v (some D)).1 k = some v) := by
  have hget : dbGet (dbSet initState 0 k v (some D)).1 k = some v := by
    simp [dbGet, dbSet, initState, stalePairErase]
  refine ⟨rfl, hget, ?_, fun t' _ => hget⟩
  simp [reaperStep, purgeExpiredKeys, dbSet, initState, stalePairErase, expInsert,
    purgeLoop, ht]

theorem expired_entry_never_removed_witness :
    (dbSet initState 0 "hello" [5] (some 10)).2 = true ∧
    dbGet (dbSet initState 0 "hello" [5] (some 10)).1 "hello" = some [5] ∧
    (reaperStep (dbSet initState 0 "hello" [5] (some 10)).1 0).2 = ReaperOutcome.panicked ∧
    (∀ t', 10 ≤ t' → dbGet (dbSet initState 0 "hello" [5] (some 10)).1 "hello" = some [5]) :=
  expired_entry_never_removed "hello" [5] 10 0 (by decide)


/-- C5: in subscribed mode, every decoded command other than Subscribe and
Unsubscribe - Get, Set, Publish, Ping and Unknown alike - is answered with
the single Error frame carrying the lowercased command name, the handler
state (pending channels and subscription map) is unchanged, and the handler
returns ok, so the sub-loop continues and the connection stays open.  The
trailing conjuncts record that get_name yields the lowercase literal for
each structured command (the stored name of an Unknown was already lowercased by
from_frame). -/
theorem subscribed_mode_rejects_other_commands (f : Frame) (c : Command)
    (channels subs : List String) (hf : fromFrame f = .ok c)
    (hs : ∀ chs, c ≠ Command.subscribe chs) (hu : ∀ chs, c ≠ Command.unsubscribe chs) :
    handleFrame f channels subs =
      .ok (channels, subs,
        [Frame.error ("Err: unknown command \x27" ++ commandName c ++ "\x27")]) ∧
    (∀ key, commandName (Command.get key) = "get") ∧
    (∀ key value expire, commandName (Command.set key value expire) = "set") ∧
    (∀ ch msg, commandName (Command.publish ch msg) = "publish") ∧
    (∀ m, commandName (Command.ping m) = "ping") ∧
    (∀ n, commandName (Command.unknown n) = n) := by
  refine ⟨?_, fun _ => rfl, fun _ _ _ => rfl, fun _ _ => rfl, fun _ => rfl, fun _ => rfl⟩
  cases c with
  | subscribe chs => exact absurd rfl (hs chs)
  | unsubscribe chs => exact absurd rfl (hu chs)
  | get key => simp [handleFrame, hf, handleCommand, unknownResponse]
  | set key value expire => simp [handleFrame, hf, handleCommand, unknownResponse]
  | publish ch msg => simp [handleFrame, hf, handleCommand, unknownResponse]
  | ping m => simp [handleFrame, hf, handleCommand, unknownResponse]
  | unknown n => simp [handleFrame, hf, handleCommand, unknownResponse]

theorem subscribed_mode_rejects_other_commands_witness :
    handleFrame (Frame.array [Frame.simple "PING"]) ["a"] ["hello"] =
      .ok (["a"], ["hello"],
        [Frame.error ("Err: unknown command \x27" ++ commandName (Command.ping none) ++ "\x27")]) :=
  (subscribed_mode_rejects_other_commands (Frame.array [Frame.simple "PING"])
    (Command.ping none) ["a"] ["hello"] rfl
    (fun _ h => Command.noConfusion h) (fun _ h => Command.noConfusion h)).1

/-- C6: the decimal decoder get_decimal (used by Frame::parse for Integer
frames and all decimal headers) reports the protocol error whenever the line
before the CRLF terminator contains a non-digit byte; conversely a successful
decode implies the line was all digits.  (The atoi parse itself is modelled
from the spec, see `atoiU64`.) -/
theorem get_decimal_rejects_nondigits (r : List Nat) (line rest : List Nat)
    (hline : getLine r = some (line, rest)) :
    ((∃ b ∈ line, isDigitByte b = false) →
      getDecimal r = .error (.other "protocol error: invalid frame format.") ∧
      parseF 1 (58 :: r) =
        ParseOut.fail (FrameError.other "protocol error: invalid frame format.")) ∧
    (∀ n rest2, getDecimal r = .ok (n, rest2) → ∀ b ∈ line, isDigitByte b = true) := by
  constructor
  · rintro ⟨b, hb, hbd⟩
    have hall : line.all isDigitByte = false := by
      rw [List.all_eq_false]
      exact ⟨b, hb, by simp [hbd]⟩
    have hdec : getDecimal r = .error (.other "protocol error: invalid frame format.") := by
      simp [getDecimal, hline, atoiU64, hall]
    exact ⟨hdec, by simp [parseF, getU8, hdec]⟩
  · intro n rest2 hok b hb
    by_contra hbd
    have hbd' : isDigitByte b = false := by
      cases hbool : isDigitByte b
      · rfl
      · exact absurd hbool hbd
    have hall : line.all isDigitByte = false := by
      rw [List.all_eq_false]
      exact ⟨b, hb, by simp [hbd']⟩
    simp [getDecimal, hline, atoiU64, hall] at hok

theorem get_decimal_rejects_nondigits_witness :
    getDecimal [52, 97, 13, 10] = .error (.other "protocol error: invalid frame format.") :=
  ((get_decimal_rejects_nondigits [52, 97, 13, 10] [52, 97] [] rfl).1
    ⟨97, by decide, rfl⟩).1

theorem rustCharLowerNat_ascii (n : Nat) (h : n < 128) :
    rustCharLowerNat n = asciiLowerNat n := by
  unfold rustCharLowerNat asciiLowerNat
  split_ifs <;> omega

theorem char_toNat_ofNat (n : Nat) (h : n < 55296) : (Char.ofNat n).toNat = n := by
  have hv : n.isValidChar := Or.inl h
  simp [Char.ofNat, hv, Char.ofNatAux, Char.toNat, UInt32.toNat, UInt32.ofNat']

theorem asciiLowerNat_lt (n : Nat) (h : n < 128) : asciiLowerNat n < 128 := by
  unfold asciiLowerNat
  split_ifs <;> omega

theorem rustToLowercase_ascii (s : String) (h : ∀ c ∈ s.data, c.toNat < 128) :
    rustToLowercase s = asciiLowercase s := by
  unfold rustToLowercase asciiLowercase
  congr 1
  apply List.map_congr_left
  intro c hc
  rw [rustCharLowerNat_ascii c.toNat (h c hc)]

theorem rustToLowercase_asciiLowercase (s : String) (h : ∀ c ∈ s.data, c.toNat < 128) :
    rustToLowercase (asciiLowercase s) = rustToLowercase s := by
  unfold rustToLowercase asciiLowercase
  congr 1
  rw [show (String.mk (s.data.map fun c => Char.ofNat (asciiLowerNat c.toNat))).data =
      s.data.map fun c => Char.ofNat (asciiLowerNat c.toNat) from rfl]
  rw [List.map_map]
  apply List.map_congr_left
  intro c hc
  have h1 : (Char.ofNat (asciiLowerNat c.toNat)).toNat = asciiLowerNat c.toNat :=
    char_toNat_ofNat _ (Nat.lt_trans (asciiLowerNat_lt _ (h c hc)) (by norm_num))
  simp only [Function.comp]
  rw [h1]
  congr 1
  have hc128 := h c hc
  unfold asciiLowerNat rustCharLowerNat
  split_ifs <;> omega

/-- C8 counterexample: the source lowercases the command name with the
Unicode `str::to_lowercase`, not ASCII case folding.  On the one-element
array whose name is "Ä" (U+00C4, not ASCII) the decoded Unknown carries the
Unicode-lowercased "ä", whereas ASCII case folding leaves "Ä" unchanged, so
the claimed reply name is wrong for this input. -/
theorem ascii_fold_counterexample :
    fromFrame (Frame.array [Frame.simple "Ä"]) = Except.ok (Command.unknown "ä") ∧
    rustToLowercase "Ä" = "ä" ∧
    asciiLowercase "Ä" = "Ä" ∧
    ("ä" : String) ≠ "Ä" :=
  ⟨rfl, rfl, rfl, by decide⟩

/-- C8 amended: the dispatch name is the first element lowercased via the
Unicode lowercase mapping (`str::to_lowercase`); every unrecognized name
yields Unknown with that name and the reply
`Err: unknown command <name>` with the name in single quotes.  On ASCII
names the Unicode mapping
coincides with ASCII case folding, so dispatch is invariant under ASCII case
of the command name. -/
theorem unknown_name_unicode_lowercased (name : String) (rest : List Frame) :
    (rustToLowercase name ∉ knownCommandNames →
      fromFrame (Frame.array (Frame.simple name :: rest)) =
        Except.ok (Command.unknown (rustToLowercase name)) ∧
      unknownResponse (rustToLowercase name) =
        Frame.error ("Err: unknown command \x27" ++ rustToLowercase name ++ "\x27")) ∧
    ((∀ c ∈ name.data, c.toNat < 128) → rustToLowercase name = asciiLowercase name) ∧
    ((∀ c ∈ name.data, c.toNat < 128) →
      fromFrame (Frame.array (Frame.simple (asciiLowercase name) :: rest)) =
        fromFrame (Frame.array (Frame.simple name :: rest))) := by
  refine ⟨?_, fun h => rustToLowercase_ascii name h, ?_⟩
  · intro hname
    simp only [knownCommandNames, List.mem_cons, List.not_mem_nil, or_false, not_or] at hname
    obtain ⟨h1, h2, h3, h4, h5, h6⟩ := hname
    exact ⟨by simp [fromFrame, nextString, stringOfFrame, dispatchCommand,
      h1, h2, h3, h4, h5, h6], rfl⟩
  · intro h
    simp only [fromFrame, nextString, stringOfFrame]
    rw [rustToLowercase_asciiLowercase name h]

theorem unknown_name_unicode_lowercased_witness :
    (fromFrame (Frame.array [Frame.simple "FOO"]) =
        Except.ok (Command.unknown (rustToLowercase "FOO")) ∧
      unknownResponse (rustToLowercase "FOO") =
        Frame.error ("Err: unknown command \x27" ++ rustToLowercase "FOO" ++ "\x27")) ∧
    rustToLowercase "FOO" = asciiLowercase "FOO" :=
  ⟨(unknown_name_unicode_lowercased "FOO" []).1 (by decide),
   (unknown_name_unicode_lowercased "FOO" []).2.1 (by decide)⟩

/-- C10: from_frame returns Unknown successfully for any unrecognized
(lowercased) name regardless of how many elements follow, because the
Unknown arm returns before `parse.finish()` runs; for recognized commands,
elements left unconsumed by the variant parser make `finish` fail with the
trailing-elements protocol error, shown here for GET, PING, PUBLISH and SET
(SUBSCRIBE and UNSUBSCRIBE parse greedily and never leave trailing
elements). -/
theorem from_frame_unknown_skips_finish (name k v ch msg : String) (rest : List Frame) :
    (rustToLowercase name ∉ knownCommandNames →
      fromFrame (Frame.array (Frame.simple name :: rest)) =
        Except.ok (Command.unknown (rustToLowercase name))) ∧
    (rest ≠ [] →
      fromFrame (Frame.array (Frame.simple "get" :: Frame.simple k :: rest)) =
        Except.error (.other "protocol error: expected end of the frame, but there was more.")) ∧
    (rest ≠ [] →
      fromFrame (Frame.array (Frame.simple "ping" :: Frame.simple msg :: rest)) =
        Except.error (.other "protocol error: expected end of the frame, but there was more.")) ∧
    (rest ≠ [] →
      fromFrame (Frame.array
          (Frame.simple "publish" :: Frame.simple ch :: Frame.simple msg :: rest)) =
        Except.error (.other "protocol error: expected end of the frame, but there was more.")) ∧
    (rest ≠ [] →
      fromFrame (Frame.array (Frame.simple "set" :: Frame.simple k :: Frame.simple v ::
          Frame.simple "PX" :: Frame.integer 100 :: rest)) =
        Except.error (.other "protocol error: expected end of the frame, but there was more.")) := by
  have hget : rustToLowercase "get" = "get" := rfl
  have hping : rustToLowercase "ping" = "ping" := rfl
  have hpub : rustToLowercase "publish" = "publish" := rfl
  have hset : rustToLowercase "set" = "set" := rfl
  have hPX : rustToUppercase "PX" = "PX" := rfl
  refine ⟨?_, ?_, ?_, ?_, ?_⟩
  · intro hname
    simp only [knownCommandNames, List.mem_cons, List.not_mem_nil, or_false, not_or] at hname
    obtain ⟨h1, h2, h3, h4, h5, h6⟩ := hname
    simp [fromFrame, nextString, stringOfFrame, dispatchCommand, h1, h2, h3, h4, h5, h6]
  · intro hrest
    cases rest with
    | nil => exact absurd rfl hrest
    | cons x r =>
      simp [fromFrame, nextString, stringOfFrame, dispatchCommand, hget,
        getParseFrames, finishP]
  · intro hrest
    cases rest with
    | nil => exact absurd rfl hrest
    | cons x r =>
      simp [fromFrame, nextString, stringOfFrame, dispatchCommand, hping,
        pingParseFrames, finishP]
  · intro hrest
    cases rest with
    | nil => exact absurd rfl hrest
    | cons x r =>
      simp [fromFrame, nextString, stringOfFrame, dispatchCommand, hpub,
        publishParseFrames, nextBytes, finishP]
  · intro hrest
    cases rest with
    | nil => exact absurd rfl hrest
    | cons x r =>
      simp [fromFrame, nextString, stringOfFrame, dispatchCommand, hset,
        setParseFrames, nextBytes, nextInt, hPX, finishP]

theorem from_frame_unknown_skips_finish_witness :
    fromFrame (Frame.array
        [Frame.simple "FOO", Frame.integer 1, Frame.integer 2]) =
      Except.ok (Command.unknown "foo") ∧
    fromFrame (Frame.array [Frame.simple "get", Frame.simple "k", Frame.simple "extra"]) =
      Except.error (.other "protocol error: expected end of the frame, but there was more.") :=
  ⟨(from_frame_unknown_skips_finish "FOO" "k" "v" "c" "m"
      [Frame.integer 1, Frame.integer 2]).1 (by decide),
   (from_frame_unknown_skips_finish "x" "k" "v" "c" "m"
      [Frame.simple "extra"]).2.1 (by simp)⟩

end MiniRedis
